import Mathlib

/-!
Verification of the fortune-job-scraper extraction and reconciliation engine.

The Python sources are shallowly embedded as executable Lean definitions:
pure helpers become Lean functions over `List Char` / `String`, the scraping
loops become fuel-indexed recursions over abstract page streams (the browser
supplies the per-pass element stream; everything the Python code computes from
that stream is modelled), and `hashlib.md5` is embedded as the full MD5
algorithm over UTF-8 byte lists.  Machine integers are `Nat` with explicit
`% 2^32` / `% 2^64` where the algorithm wraps.
-/

set_option maxRecDepth 8000

namespace FJS

/-! ### Character and string helpers

Python string primitives used by the sources (`str.lower`, substring tests,
`str.split()`, `str.strip()`) are embedded over `List Char`.  All inputs in
scope are ASCII, where `Char.toLower` agrees with Python `str.lower`. -/

/-- Python `str.lower()` (ASCII-faithful). -/
def lowerStr (s : String) : String := ⟨s.data.map Char.toLower⟩

/-- Occurrence of `pat` as a contiguous sublist of the haystack
(Python `pat in hay`). -/
def subOcc (pat : List Char) : List Char → Bool
  | [] => pat.isEmpty
  | c :: t => pat.isPrefixOf (c :: t) || subOcc pat t

/-- Python `pat in hay` on strings. -/
def strContainsSub (hay pat : String) : Bool := subOcc pat.data hay.data

/-- Whitespace for Python `str.split()` / `str.strip()` (ASCII whitespace:
space, tab, newline, vertical tab, form feed, carriage return). -/
def isPySpace (c : Char) : Bool :=
  c = ' ' || c = '\t' || c = '\n' || c = '\x0b' || c = '\x0c' || c = '\r'

/-- Accumulator pass of Python `str.split()` (split on whitespace runs,
discarding empty pieces).  `acc` holds the current word reversed. -/
def pyWordsAux : List Char → List Char → List (List Char)
  | [], acc => if acc = [] then [] else [acc.reverse]
  | c :: t, acc =>
    if isPySpace c then
      if acc = [] then pyWordsAux t [] else acc.reverse :: pyWordsAux t []
    else pyWordsAux t (c :: acc)

/-- Python `text.split()` with no separator argument. -/
def pyWords (l : List Char) : List (List Char) := pyWordsAux l []

/-- `" ".join(words)` at the character level. -/
def joinSpace : List (List Char) → List Char
  | [] => []
  | [w] => w
  | w :: w2 :: ws => w ++ ' ' :: joinSpace (w2 :: ws)

/-- Python `str.strip()` (default whitespace strip on both ends). -/
def pyStripChars (l : List Char) : List Char :=
  ((l.dropWhile isPySpace).reverse.dropWhile isPySpace).reverse

/-- `BaseScraper.clean_text` (src/scraper/base_scraper.py):
`if not text: return ""` then `" ".join(text.split()).strip()`. -/
def clean_text (text : String) : String :=
  if text = "" then ""
  else ⟨pyStripChars (joinSpace (pyWords text.data))⟩

/-! ### Configuration (src/config.py) -/

/-- `config.KEYWORDS`. -/
def KEYWORDS : List String :=
  ["data", "analyst", "analytics", "machine learning", "ml",
   "data science", "data scientist", "data engineer", "data analyst",
   "business intelligence", "bi", "ai", "artificial intelligence"]

/-- `config.MAX_PAGES_PER_COMPANY`. -/
def MAX_PAGES_PER_COMPANY : Nat := 50

/-- `config.WORKDAY_PATTERNS`. -/
def WORKDAY_PATTERNS : List String :=
  ["myworkdayjobs.com", "wd1.myworkdayjobs", "wd3.myworkdayjobs",
   "wd5.myworkdayjobs", "workday.com/en-us/careers"]

/-- `config.EIGHTFOLD_PATTERNS`. -/
def EIGHTFOLD_PATTERNS : List String := ["eightfold.ai", ".eightfold.ai/careers"]

/-- `config.GREENHOUSE_PATTERNS`. -/
def GREENHOUSE_PATTERNS : List String :=
  ["boards.greenhouse.io", "greenhouse.io/embed", "grnh.se"]

/-- `config.LEVER_PATTERNS`. -/
def LEVER_PATTERNS : List String := ["jobs.lever.co", "lever.co/"]

/-- `config.ICIMS_PATTERNS`. -/
def ICIMS_PATTERNS : List String := [".icims.com", "careers-icims.com", "icims.com/jobs"]

/-- `config.TALEO_PATTERNS`. -/
def TALEO_PATTERNS : List String := [".taleo.net", "taleo.com", "careersection"]

/-- `config.SMARTRECRUITERS_PATTERNS`. -/
def SMARTRECRUITERS_PATTERNS : List String :=
  ["jobs.smartrecruiters.com", "smartrecruiters.com/job", "careers.smartrecruiters.com"]

/-- `config.PLAID_PATTERNS`. -/
def PLAID_PATTERNS : List String := ["plaid.com/careers"]

/-! ### Keyword matching
(src/utils/job_filter.py `matches_any_keyword`,
src/scraper/base_scraper.py `BaseScraper.matches_keywords`)

Both functions lowercase the text and, for each keyword, search for
`r"\b" + re.escape(keyword.lower()) + r"\b"`.  Every configured keyword
begins and ends with a word character, so the compiled pattern matches the
literal keyword at a position whose neighbouring characters (when they exist)
are non-word characters. -/

/-- Python regex `\w` over ASCII: letters, digits, underscore. -/
def isWordChar (c : Char) : Bool := c.isAlpha || c.isDigit || c = '_'

/-- A `\b` boundary against the optional adjacent character. -/
def boundaryOk : Option Char → Bool
  | none => true
  | some c => !isWordChar c

/-- `re.search(r"\b<kw>\b", text)` for a literal keyword that starts and ends
with word characters: scan every suffix, requiring the keyword as a prefix
with word boundaries on both sides.  `pre` is the character preceding the
current suffix. -/
def kwSearch (kw : List Char) : Option Char → List Char → Bool
  | pre, text =>
    (kw.isPrefixOf text && boundaryOk pre && boundaryOk (text.drop kw.length).head?) ||
    match text with
    | [] => false
    | c :: t => kwSearch kw (some c) t

/-- One keyword test of `matches_any_keyword`: boundary-anchored,
case-insensitive search of `keyword` in `text`. -/
def kwMatch (text keyword : String) : Bool :=
  kwSearch (lowerStr keyword).data none (lowerStr text).data

/-- `matches_any_keyword(text, keywords)` (src/utils/job_filter.py): ordered
list of keywords whose boundary pattern occurs in the lowercased text. -/
def matches_any_keyword (text : String) (keywords : List String) : List String :=
  keywords.filter (fun keyword => kwMatch text keyword)

/-- `BaseScraper.matches_keywords` / `matches_any_keyword` with the default
`config.KEYWORDS` list. -/
def matches_keywords (job_title : String) : List String :=
  matches_any_keyword job_title KEYWORDS

/-! ### Deduplication (src/utils/deduplication.py) and the reconciliation
step of `process_companies` (src/main.py) -/

/-- A job dict as consumed by the dedup helpers; only the `job_id` key is
read by them. -/
structure JobRow where
  job_id : String
deriving DecidableEq

/-- `filter_new_jobs(jobs, existing_ids)`:
`[job for job in jobs if job.get("job_id") not in existing_ids]`. -/
def filter_new_jobs (jobs : List JobRow) (existing_ids : List String) : List JobRow :=
  jobs.filter (fun job => !existing_ids.contains job.job_id)

/-- `find_existing_jobs(jobs, existing_ids)`:
`[job["job_id"] for job in jobs if job.get("job_id") in existing_ids]`. -/
def find_existing_jobs (jobs : List JobRow) (existing_ids : List String) : List String :=
  (jobs.filter (fun job => existing_ids.contains job.job_id)).map (fun job => job.job_id)

/-- Result of one company iteration of `process_companies` (src/main.py,
non-dry-run): the new jobs appended, the ids refreshed, and the in-memory
`existing_ids` snapshot after the `existing_ids.add(job["job_id"])` loop. -/
structure ReconcileStep where
  new_jobs : List JobRow
  existing_job_ids : List String
  updated_ids : List String
deriving DecidableEq

/-- One company iteration of the reconciliation in `process_companies`:
dedup the batch against `existing_ids`, then fold the new ids into the
in-memory snapshot (the fold runs only when `new_jobs` is non-empty, exactly
as in the source). -/
def processCompanyBatch (existing_ids : List String) (job_dicts : List JobRow) :
    ReconcileStep :=
  let new_jobs := filter_new_jobs job_dicts existing_ids
  let existing_job_ids := find_existing_jobs job_dicts existing_ids
  let updated :=
    if new_jobs = [] then existing_ids
    else existing_ids ++ new_jobs.map (fun job => job.job_id)
  ⟨new_jobs, existing_job_ids, updated⟩

/-- The whole-run reconciliation of `process_companies`: company batches are
processed sequentially, each against the snapshot left by its predecessors. -/
def processRun (existing_ids : List String) :
    List (List JobRow) → List (List JobRow × List String)
  | [] => []
  | batch :: rest =>
    let step := processCompanyBatch existing_ids batch
    (step.new_jobs, step.existing_job_ids) :: processRun step.updated_ids rest

/-! ### Platform dispatch (src/scraper/dispatcher.py) -/

/-- `ScraperDispatcher.PLATFORM_MATCHERS` — the ordered detection table,
specific company sites first.  Each entry's scraper class is identified here
by the platform name it is registered under. -/
def PLATFORM_MATCHERS : List (String × List String) :=
  [("plaid", PLAID_PATTERNS),
   ("workday", WORKDAY_PATTERNS),
   ("eightfold", EIGHTFOLD_PATTERNS),
   ("greenhouse", GREENHOUSE_PATTERNS),
   ("lever", LEVER_PATTERNS),
   ("icims", ICIMS_PATTERNS),
   ("taleo", TALEO_PATTERNS),
   ("smartrecruiters", SMARTRECRUITERS_PATTERNS)]

/-- One pattern test of `detect_platform`: `pattern.lower() in url_lower`. -/
def patternHits (url_lower pattern : String) : Bool :=
  strContainsSub url_lower (lowerStr pattern)

/-- `ScraperDispatcher.detect_platform(url)`: first table entry owning a
pattern that occurs in the lowercased URL, else `"generic"`. -/
def detect_platform (url : String) : String :=
  let url_lower := lowerStr url
  match PLATFORM_MATCHERS.find?
      (fun entry => entry.2.any (fun pattern => patternHits url_lower pattern)) with
  | some entry => entry.1
  | none => "generic"

/-- `ScraperDispatcher.get_scraper`, reduced to the identity of the scraper
class it instantiates (named by its platform): `platform = hint.lower() if
hint else None`, then `if not platform: platform = detect_platform(url)`,
then the first table entry whose name equals `platform`, else the generic
scraper. -/
def get_scraper_platform (career_url : String) (platform_hint : Option String) : String :=
  let hinted : Option String :=
    match platform_hint with
    | some h => if h = "" then none else some (lowerStr h)
    | none => none
  let platform :=
    match hinted with
    | some p => p
    | none => detect_platform career_url
  match PLATFORM_MATCHERS.find? (fun entry => entry.1 = platform) with
  | some entry => entry.1
  | none => "generic"

/-! ### Pagination traversal loops

`GenericScraper.scrape` (src/scraper/generic_scraper.py lines 149-165) and
`ICIMSScraper.scrape` (src/scraper/icims_scraper.py lines 73-96).  The
browser-facing extraction is abstracted as a stream `pages : Nat → List
String` giving, for each pass, the canonical URLs of the job fragments the
selector cascade encounters in order; the pagination probe is an oracle
`Nat → Bool`.  Everything the Python loop computes from those — the
`seen_urls` dedup, the per-pass new counts, the accumulated job list, the
page counter and every termination test — is modelled exactly. -/

/-- The per-pass dedup against `seen_urls` shared by
`GenericScraper._extract_jobs_from_page` and the iCIMS `new_count` loop:
each candidate URL not yet seen is appended to the new list and added to the
seen set.  Returns (new fragments in order, updated seen set). -/
def extractNew (seen : List String) : List String → List String × List String
  | [] => ([], seen)
  | u :: rest =>
    if seen.contains u then extractNew seen rest
    else
      let step := extractNew (u :: seen) rest
      (u :: step.1, step.2)

/-- The `while page_count < MAX_PAGES_PER_COMPANY` loop of
`GenericScraper.scrape`, fuel-indexed by the remaining page budget:
increment the counter, extract (deduplicating against `seen_urls`), extend
the job list, then continue iff `_handle_pagination()` succeeds.  Returns
(final page_count, accumulated jobs). -/
def genericScrapeLoop (pages : Nat → List String) (hasMore : Nat → Bool) :
    Nat → Nat → List String → List String → Nat × List String
  | 0, page_count, _, acc => (page_count, acc)
  | fuel+1, page_count, seen, acc =>
    let pc := page_count + 1
    let step := extractNew seen (pages pc)
    let acc2 := acc ++ step.1
    if hasMore pc then genericScrapeLoop pages hasMore fuel pc step.2 acc2
    else (pc, acc2)

/-- `GenericScraper.scrape`'s traversal from a fresh state. -/
def genericScrape (pages : Nat → List String) (hasMore : Nat → Bool) :
    Nat × List String :=
  genericScrapeLoop pages hasMore MAX_PAGES_PER_COMPANY 0 [] []

/-- The `while page_count < MAX_PAGES_PER_COMPANY` loop of
`ICIMSScraper.scrape`: extract and count new fragments; break when
`new_count == 0 and page_count > 1`; otherwise continue iff
`_go_to_next_page` succeeds. -/
def icimsScrapeLoop (pages : Nat → List String) (hasNext : Nat → Bool) :
    Nat → Nat → List String → List String → Nat × List String
  | 0, page_count, _, acc => (page_count, acc)
  | fuel+1, page_count, seen, acc =>
    let pc := page_count + 1
    let step := extractNew seen (pages pc)
    let acc2 := acc ++ step.1
    if step.1.length = 0 && decide (1 < pc) then (pc, acc2)
    else if hasNext pc then icimsScrapeLoop pages hasNext fuel pc step.2 acc2
    else (pc, acc2)

/-- `ICIMSScraper.scrape`'s traversal from a fresh state. -/
def icimsScrape (pages : Nat → List String) (hasNext : Nat → Bool) :
    Nat × List String :=
  icimsScrapeLoop pages hasNext MAX_PAGES_PER_COMPANY 0 [] []

/-! ### Ledger I/O retry (src/sheets_client.py `retry_with_backoff`) -/

/-- The exceptions distinguished by `retry_with_backoff`'s except clauses. -/
inductive PyError
  | sslError (msg : String)
  | httpError (status : Nat)
  | connectionError (msg : String)
  | otherError (msg : String)
deriving DecidableEq

/-- Whether an except clause of `retry_with_backoff` classifies the error as
transient (stored and retried) rather than re-raised: `ssl.SSLError` yes;
`HttpError` iff `status >= 500 or status == 429`; connection errors yes;
any other exception iff its message contains `'EOF'`, `'ssl'` or
`'connection'` (the latter two case-insensitively). -/
def retryTransient : PyError → Bool
  | .sslError _ => true
  | .httpError status => decide (500 ≤ status) || decide (status = 429)
  | .connectionError _ => true
  | .otherError msg =>
      strContainsSub msg "EOF" || strContainsSub (lowerStr msg) "ssl" ||
      strContainsSub (lowerStr msg) "connection"

/-- `min(base_delay * (2 ** attempt), max_delay)` — the sleep computed before
retry `attempt + 1`.  The source uses floats with defaults 1.0 and 60.0;
every value reached is an exact small integer, so `Nat` is a faithful
carrier. -/
def backoffDelay (base_delay max_delay attempt : Nat) : Nat :=
  min (base_delay * 2 ^ attempt) max_delay

/-- The `for attempt in range(max_retries)` loop of `retry_with_backoff`,
fuel-indexed by the remaining attempts.  `f attempt` is what the wrapped
call does on that attempt; `last` is `last_exception`; the second component
records the sleeps performed.  A non-transient error is re-raised at once
(`.error (some e)` with no further calls); when the loop ends the stored
`last_exception` is raised. -/
def retryAux {α : Type} (f : Nat → Except PyError α) (max_retries base_delay max_delay : Nat) :
    Nat → Nat → Option PyError → List Nat → Except (Option PyError) α × List Nat
  | 0, _, last, delays => (.error last, delays)
  | fuel+1, attempt, _, delays =>
    match f attempt with
    | .ok v => (.ok v, delays)
    | .error e =>
      if retryTransient e then
        if attempt + 1 < max_retries then
          retryAux f max_retries base_delay max_delay fuel (attempt + 1) (some e)
            (delays ++ [backoffDelay base_delay max_delay attempt])
        else (.error (some e), delays)
      else (.error (some e), delays)

/-- `retry_with_backoff(func, max_retries, base_delay, max_delay)`
(src/sheets_client.py; defaults 5, 1.0, 60.0). -/
def retry_with_backoff {α : Type} (f : Nat → Except PyError α)
    (max_retries base_delay max_delay : Nat) : Except (Option PyError) α × List Nat :=
  retryAux f max_retries base_delay max_delay max_retries 0 none []

/-! ### MD5 (`hashlib.md5(...).hexdigest()`)

Full RFC 1321 MD5 over UTF-8 byte lists; 32-bit machine words are `Nat`
with explicit `% 2^32`. -/

/-- Truncation to a 32-bit word. -/
def u32 (n : Nat) : Nat := n % 4294967296

/-- 32-bit left rotation (input assumed `< 2^32`). -/
def rotl32 (x s : Nat) : Nat := u32 (Nat.lor (x <<< s) (x >>> (32 - s)))

/-- 32-bit complement. -/
def md5Not32 (x : Nat) : Nat := Nat.xor 4294967295 x

/-- The MD5 sine-derived constant table `K`. -/
def md5K : List Nat :=
  [0xd76aa478, 0xe8c7b756, 0x242070db, 0xc1bdceee,
   0xf57c0faf, 0x4787c62a, 0xa8304613, 0xfd469501,
   0x698098d8, 0x8b44f7af, 0xffff5bb1, 0x895cd7be,
   0x6b901122, 0xfd987193, 0xa679438e, 0x49b40821,
   0xf61e2562, 0xc040b340, 0x265e5a51, 0xe9b6c7aa,
   0xd62f105d, 0x02441453, 0xd8a1e681, 0xe7d3fbc8,
   0x21e1cde6, 0xc33707d6, 0xf4d50d87, 0x455a14ed,
   0xa9e3e905, 0xfcefa3f8, 0x676f02d9, 0x8d2a4c8a,
   0xfffa3942, 0x8771f681, 0x6d9d6122, 0xfde5380c,
   0xa4beea44, 0x4bdecfa9, 0xf6bb4b60, 0xbebfbc70,
   0x289b7ec6, 0xeaa127fa, 0xd4ef3085, 0x04881d05,
   0xd9d4d039, 0xe6db99e5, 0x1fa27cf8, 0xc4ac5665,
   0xf4292244, 0x432aff97, 0xab9423a7, 0xfc93a039,
   0x655b59c3, 0x8f0ccc92, 0xffeff47d, 0x85845dd1,
   0x6fa87e4f, 0xfe2ce6e0, 0xa3014314, 0x4e0811a1,
   0xf7537e82, 0xbd3af235, 0x2ad7d2bb, 0xeb86d391]

/-- The MD5 per-round shift table `s`. -/
def md5S : List Nat :=
  [7, 12, 17, 22, 7, 12, 17, 22, 7, 12, 17, 22, 7, 12, 17, 22,
   5, 9, 14, 20, 5, 9, 14, 20, 5, 9, 14, 20, 5, 9, 14, 20,
   4, 11, 16, 23, 4, 11, 16, 23, 4, 11, 16, 23, 4, 11, 16, 23,
   6, 10, 15, 21, 6, 10, 15, 21, 6, 10, 15, 21, 6, 10, 15, 21]

/-- The four running MD5 words. -/
structure Md5State where
  a : Nat
  b : Nat
  c : Nat
  d : Nat
deriving DecidableEq

/-- One of the 64 MD5 rounds on message words `m`. -/
def md5Step (m : List Nat) (st : Md5State) (i : Nat) : Md5State :=
  let fg : Nat × Nat :=
    if i < 16 then
      (Nat.lor (Nat.land st.b st.c) (Nat.land (md5Not32 st.b) st.d), i)
    else if i < 32 then
      (Nat.lor (Nat.land st.d st.b) (Nat.land (md5Not32 st.d) st.c), (5 * i + 1) % 16)
    else if i < 48 then
      (Nat.xor (Nat.xor st.b st.c) st.d, (3 * i + 5) % 16)
    else
      (Nat.xor st.c (Nat.lor st.b (md5Not32 st.d)), (7 * i) % 16)
  let f := u32 (fg.1 + st.a + md5K.getD i 0 + m.getD fg.2 0)
  { a := st.d, b := u32 (st.b + rotl32 f (md5S.getD i 0)), c := st.b, d := st.c }

/-- Little-endian 32-bit word from up to four bytes. -/
def leWord (bytes : List Nat) : Nat :=
  bytes.getD 0 0 + 256 * bytes.getD 1 0 + 65536 * bytes.getD 2 0 + 16777216 * bytes.getD 3 0

/-- The sixteen message words of one 64-byte block. -/
def md5Words (block : List Nat) : List Nat :=
  (List.range 16).map (fun j => leWord ((block.drop (4 * j)).take 4))

/-- Process one 64-byte block. -/
def md5Block (st : Md5State) (block : List Nat) : Md5State :=
  let m := md5Words block
  let r := (List.range 64).foldl (md5Step m) st
  { a := u32 (st.a + r.a), b := u32 (st.b + r.b), c := u32 (st.c + r.c), d := u32 (st.d + r.d) }

/-- `count` little-endian bytes of `n`. -/
def leBytes (n count : Nat) : List Nat :=
  (List.range count).map (fun j => (n >>> (8 * j)) % 256)

/-- MD5 padding: `0x80`, zeros to 56 mod 64, then the bit length as a
64-bit little-endian quantity. -/
def md5Pad (msg : List Nat) : List Nat :=
  let len := msg.length
  let zeros := (119 - len % 64) % 64
  msg ++ [128] ++ List.replicate zeros 0 ++ leBytes ((8 * len) % 18446744073709551616) 8

/-- Lowercase hex digit. -/
def hexDigit (n : Nat) : Char := if n < 10 then Char.ofNat (48 + n) else Char.ofNat (87 + n)

/-- Two lowercase hex digits of a byte. -/
def byteHexChars (b : Nat) : List Char := [hexDigit (b / 16), hexDigit (b % 16)]

/-- Eight hex digits of a 32-bit word, little-endian byte order as in the
MD5 digest. -/
def wordLeHex (w : Nat) : List Char := (leBytes w 4).flatMap byteHexChars

/-- `hashlib.md5(bytes).hexdigest()` on a byte list. -/
def md5DigestHex (msg : List Nat) : String :=
  let blocks := List.toChunks 64 (md5Pad msg)
  let st := blocks.foldl md5Block ⟨0x67452301, 0xefcdab89, 0x98badcfe, 0x10325476⟩
  ⟨wordLeHex st.a ++ wordLeHex st.b ++ wordLeHex st.c ++ wordLeHex st.d⟩

/-- UTF-8 encoding of one character (Python `str.encode()`). -/
def utf8Bytes (c : Char) : List Nat :=
  let n := c.toNat
  if n < 128 then [n]
  else if n < 2048 then [192 + n / 64, 128 + n % 64]
  else if n < 65536 then [224 + n / 4096, 128 + (n / 64) % 64, 128 + n % 64]
  else [240 + n / 262144, 128 + (n / 4096) % 64, 128 + (n / 64) % 64, 128 + n % 64]

/-- `hashlib.md5(s.encode()).hexdigest()`. -/
def md5HexStr (s : String) : String := md5DigestHex (s.data.flatMap utf8Bytes)

/-! ### URL parsing (`urllib.parse.urlparse` as used by the sources) -/

/-- The components of `urllib.parse.urlparse`. -/
structure UrlParts where
  scheme : String
  netloc : String
  path : String
  params : String
  query : String
  fragment : String
deriving DecidableEq

/-- Split a character list at the first occurrence of `ch` (the separator is
dropped); `none` when absent. -/
def splitAtFirst (ch : Char) : List Char → Option (List Char × List Char)
  | [] => none
  | c :: t =>
    if c = ch then some ([], t)
    else
      match splitAtFirst ch t with
      | none => none
      | some (a, b) => some (c :: a, b)

/-- Characters allowed in a URL scheme after the leading letter. -/
def isSchemeChar (c : Char) : Bool := c.isAlpha || c.isDigit || c = '+' || c = '-' || c = '.'

/-- Scheme extraction of `urlsplit`: a leading-letter run of scheme
characters followed by `':'`. -/
def splitScheme (l : List Char) : Option (List Char × List Char) :=
  match splitAtFirst ':' l with
  | none => none
  | some (before, after) =>
    match before with
    | [] => none
    | c :: rest =>
      if c.isAlpha && (c :: rest).all isSchemeChar then some (c :: rest, after) else none

/-- `_splitnetloc`: the netloc runs to the first `'/'`, `'?'` or `'#'`. -/
def takeNetloc : List Char → List Char × List Char
  | [] => ([], [])
  | c :: t =>
    if c = '/' || c = '?' || c = '#' then ([], c :: t)
    else
      let r := takeNetloc t
      (c :: r.1, r.2)

/-- `_splitparams`: split params off the last path segment at the first
`';'` occurring at or after the last `'/'`.  Only called when the path
contains a `';'`. -/
def splitParamsChars (path : List Char) : List Char × List Char :=
  let idx : Option Nat :=
    if path.contains '/' then
      match (path.reverse).findIdx? (fun c => c = '/') with
      | some j =>
        let s := path.length - 1 - j
        ((path.drop s).findIdx? (fun c => c = ';')).map (fun i => i + s)
      | none => path.findIdx? (fun c => c = ';')
    else path.findIdx? (fun c => c = ';')
  match idx with
  | some i => (path.take i, path.drop (i + 1))
  | none => (path, [])

/-- `urllib.parse.urlparse(url, scheme=default_scheme)`: scheme, then
`//netloc`, then fragment, then query, then params off the path. -/
def urlparseM (url : String) (default_scheme : String := "") : UrlParts :=
  let l := url.data
  let schemeRest : List Char × List Char :=
    match splitScheme l with
    | some (s, r) => (s.map Char.toLower, r)
    | none => (default_scheme.data, l)
  let rest := schemeRest.2
  let netlocRest : List Char × List Char :=
    if ['/', '/'].isPrefixOf rest then takeNetloc (rest.drop 2) else ([], rest)
  let rest2 := netlocRest.2
  let noFrag : List Char × List Char :=
    match splitAtFirst '#' rest2 with
    | some (a, b) => (a, b)
    | none => (rest2, [])
  let noQuery : List Char × List Char :=
    match splitAtFirst '?' noFrag.1 with
    | some (a, b) => (a, b)
    | none => (noFrag.1, [])
  let pathParams : List Char × List Char :=
    if noQuery.1.contains ';' then splitParamsChars noQuery.1 else (noQuery.1, [])
  ⟨⟨schemeRest.1⟩, ⟨netlocRest.1⟩, ⟨pathParams.1⟩, ⟨pathParams.2⟩, ⟨noQuery.2⟩, ⟨noFrag.2⟩⟩

/-! ### Job-id derivation (src/scraper/base_scraper.py `generate_job_id`) -/

/-- `BaseScraper.generate_job_id(job_url, job_title)`: parse the URL, keep
`netloc + path`, hash `company|normalized|title` with MD5 and truncate the
hex digest to 16 characters. -/
def generate_job_id (company_name job_url job_title : String) : String :=
  let parsed := urlparseM job_url
  let normalized := parsed.netloc ++ parsed.path
  let content := company_name ++ "|" ++ normalized ++ "|" ++ job_title
  ⟨(md5HexStr content).data.take 16⟩

/-- The id derivation as the spec words it, for comparison with
`generate_job_id`: the content hash uses the normalized
`scheme+host+path`, discarding only the query string. -/
def specGenerateJobId (company_name job_url job_title : String) : String :=
  let parsed := urlparseM job_url
  let normalized := parsed.scheme ++ "://" ++ parsed.netloc ++ parsed.path
  let content := company_name ++ "|" ++ normalized ++ "|" ++ job_title
  ⟨(md5HexStr content).data.take 16⟩

/-! ### URL joining (`urllib.parse.urljoin`) and `BaseScraper.normalize_url` -/

/-- Schemes for which relative joining applies (`urllib.parse.uses_relative`). -/
def uses_relative : List String :=
  ["", "ftp", "http", "gopher", "nntp", "imap", "wais", "file", "https",
   "shttp", "mms", "prospero", "rtsp", "rtspu", "sftp", "svn", "svn+ssh",
   "ws", "wss"]

/-- Schemes carrying a netloc (`urllib.parse.uses_netloc`). -/
def uses_netloc : List String :=
  ["", "ftp", "http", "gopher", "nntp", "telnet", "imap", "wais", "file",
   "mms", "https", "shttp", "snews", "prospero", "rtsp", "rtspu", "rsync",
   "svn", "svn+ssh", "sftp", "nfs", "git", "git+ssh", "ws", "wss",
   "itms-services"]

/-- `pat.data` is a prefix of `s.data` (Python `s.startswith(pat)`). -/
def startsWithLit (s pat : String) : Bool := pat.data.isPrefixOf s.data

/-- Python `str.split('/')`: empty pieces kept, at least one piece. -/
def splitSlashChars : List Char → List (List Char)
  | [] => [[]]
  | c :: t =>
    if c = '/' then [] :: splitSlashChars t
    else
      match splitSlashChars t with
      | [] => [[c]]
      | w :: ws => (c :: w) :: ws

/-- `path.split('/')` as strings. -/
def splitSegs (s : String) : List String := (splitSlashChars s.data).map (fun w => ⟨w⟩)

/-- `'/'.join(segments)`. -/
def joinSegs : List String → String
  | [] => ""
  | [x] => x
  | x :: y :: rest => x ++ "/" ++ joinSegs (y :: rest)

/-- `segments[1:-1] = filter(None, segments[1:-1])`: drop empty interior
segments, keeping the first and last. -/
def filterInterior : List String → List String
  | [] => []
  | [x] => [x]
  | x :: rest =>
    x :: (rest.dropLast.filter (fun s => s ≠ "")) ++ [rest.getLastD ""]

/-- `urllib.parse.urlunsplit`. -/
def urlunsplitM (scheme netloc url query fragment : String) : String :=
  let url1 :=
    if netloc ≠ "" || (url ≠ "" && startsWithLit url "//") then
      let url0 := if url ≠ "" && !startsWithLit url "/" then "/" ++ url else url
      "//" ++ netloc ++ url0
    else url
  let url2 := if scheme ≠ "" then scheme ++ ":" ++ url1 else url1
  let url3 := if query ≠ "" then url2 ++ "?" ++ query else url2
  if fragment ≠ "" then url3 ++ "#" ++ fragment else url3

/-- `urllib.parse.urlunparse`: params are rejoined to the path with `';'`. -/
def urlunparseM (scheme netloc path params query fragment : String) : String :=
  let url := if params ≠ "" then path ++ ";" ++ params else path
  urlunsplitM scheme netloc url query fragment

/-- `urllib.parse.urljoin(base, url)`: relative reference resolution with
dot-segment handling as implemented by CPython. -/
def urljoinM (base url : String) : String :=
  if base = "" then url
  else if url = "" then base
  else
    let b := urlparseM base ""
    let r := urlparseM url b.scheme
    if r.scheme ≠ b.scheme || !(uses_relative.contains r.scheme) then url
    else
      let netlocScheme := uses_netloc.contains r.scheme
      if netlocScheme && r.netloc ≠ "" then
        urlunparseM r.scheme r.netloc r.path r.params r.query r.fragment
      else
        let netloc := if netlocScheme then b.netloc else r.netloc
        if r.path = "" && r.params = "" then
          let query := if r.query = "" then b.query else r.query
          urlunparseM r.scheme netloc b.path b.params query r.fragment
        else
          let base_parts0 := splitSegs b.path
          let base_parts :=
            if base_parts0.getLastD "" ≠ "" then base_parts0.dropLast else base_parts0
          let segments :=
            if startsWithLit r.path "/" then splitSegs r.path
            else filterInterior (base_parts ++ splitSegs r.path)
          let resolved0 := segments.foldl
            (fun acc seg =>
              if seg = ".." then acc.dropLast
              else if seg = "." then acc
              else acc ++ [seg]) []
          let resolved :=
            if segments.getLastD "" = "." || segments.getLastD "" = ".." then
              resolved0 ++ [""]
            else resolved0
          let joined := joinSegs resolved
          urlunparseM r.scheme netloc (if joined = "" then "/" else joined)
            r.params r.query r.fragment

/-- `BaseScraper.normalize_url(url, base_url)`: empty URLs stay empty,
`http(s)://` URLs pass through unchanged, anything else is joined against
`base_url or self.base_domain`. -/
def normalize_url (base_domain url : String) (base_url : Option String) : String :=
  if url = "" then ""
  else if startsWithLit url "http://" || startsWithLit url "https://" then url
  else urljoinM (base_url.getD base_domain) url

/-! ### Fragment extraction (src/scraper/generic_scraper.py,
src/scraper/greenhouse_scraper.py) -/

/-- The attributes of a rendered anchor/card element that the extraction
code reads (`None` models a missing attribute / empty text handle). -/
structure PageElement where
  href : Option String
  text_content : Option String
  aria_label : Option String
  title_attr : Option String
deriving DecidableEq

/-- `GenericScraper.EXCLUDE_PATTERNS` — all literal regexes, so substring
occurrence is exact. -/
def EXCLUDE_PATTERNS : List String :=
  ["/login", "/sign-in", "/signin", "/register", "/apply", "/saved",
   "/alerts", "/profile", "/account", "/privacy", "/terms", "/cookie",
   "/accessibility", "#", "javascript:", "mailto:"]

/-- `GenericScraper._should_exclude_url`. -/
def should_exclude_url (url : String) : Bool :=
  EXCLUDE_PATTERNS.any (fun pattern => strContainsSub (lowerStr url) pattern)

/-- `GenericScraper._looks_like_job_url`: the alternation of its job-marker
regexes expanded to the literal substrings they accept. -/
def looks_like_job_url (url : String) : Bool :=
  let u := lowerStr url
  ["/job/", "/jobs/", "/position/", "/positions/", "/career/", "/careers/",
   "/opening/", "/openings/", "/requisition/", "/vacancy/", "/posting/",
   "jobid=", "job-id=", "job_id=", "requisitionid=", "requisition-id=",
   "requisition_id=", "/apply/"].any (fun pattern => strContainsSub u pattern)

/-- The aria-label / title-attribute fallback chain of
`GenericScraper._extract_title`. -/
def titleAttrFallback (el : PageElement) : String :=
  match el.title_attr with
  | some t => if t ≠ "" then clean_text t else ""
  | none => ""

/-- Continuation of `_extract_title` after the text-content attempt. -/
def ariaFallback (el : PageElement) : String :=
  match el.aria_label with
  | some a => if a ≠ "" then clean_text a else titleAttrFallback el
  | none => titleAttrFallback el

/-- `GenericScraper._extract_title`: cleaned text content when its length is
strictly between 5 and 200, else the aria-label, else the title attribute,
else `""`. -/
def extract_title (el : PageElement) : String :=
  match el.text_content with
  | some t =>
    if t ≠ "" then
      let c := clean_text t
      if 5 < c.length && c.length < 200 then c else ariaFallback el
    else ariaFallback el
  | none => ariaFallback el

/-- A scraped job (`Job` dataclass, src/scraper/base_scraper.py). -/
structure Job where
  job_id : String
  job_title : String
  job_url : String
  company_name : String
  company_career_url : String
  location : String := ""
  posted_date : String := ""
  keywords_matched : List String := []
deriving DecidableEq

/-- `GenericScraper._parse_job_element`: reject missing/excluded hrefs,
normalize the URL, extract the title (rejecting empty ones), take the
location `_extract_location` produced (always a string), and derive the id.
`location` is the result of `_extract_location`, whose every return path
yields a string. -/
def parse_job_element (company_name career_url base_domain : String)
    (el : PageElement) (location : String) : Option Job :=
  match el.href with
  | none => none
  | some href =>
    if href = "" || should_exclude_url href then none
    else
      let job_url := normalize_url base_domain href none
      let title := extract_title el
      if title = "" then none
      else
        some
          { job_id := generate_job_id company_name job_url title
            job_title := title
            job_url := job_url
            company_name := company_name
            company_career_url := career_url
            location := location }

/-- `clean_text(x) if x else ""` — the optional-text cleaning shared by the
link-enumeration fallback and the greenhouse browser path. -/
def optText : Option String → String
  | some t => if t ≠ "" then clean_text t else ""
  | none => ""

/-- One link iteration of `GenericScraper._extract_jobs_generic` (the
link-enumeration fallback): returns the job accepted from this link, if any,
and the updated `seen_urls`.  Jobs built here carry the dataclass defaults
for `location` and `posted_date`. -/
def genericLinkAccept (company_name career_url base_domain : String)
    (seen : List String) (href : Option String) (text_content : Option String) :
    Option Job × List String :=
  match href with
  | none => (none, seen)
  | some h =>
    if h = "" || should_exclude_url h then (none, seen)
    else if !looks_like_job_url h then (none, seen)
    else
      let text := optText text_content
      if text = "" || text.length < 5 || 200 < text.length then (none, seen)
      else
        let job_url := normalize_url base_domain h none
        if seen.contains job_url then (none, seen)
        else
          (some
            { job_id := generate_job_id company_name job_url text
              job_title := text
              job_url := job_url
              company_name := company_name
              company_career_url := career_url },
           job_url :: seen)

/-- `GreenhouseScraper._extract_job_id`: `re.search(r'/jobs/(\d+)', url)` —
the leftmost occurrence of `/jobs/` followed by at least one digit yields
`GH_` plus the maximal digit run; otherwise fall back to the content hash
with an empty title. -/
def ghDigitsAt (l : List Char) : Option (List Char) :=
  if ("/jobs/".data).isPrefixOf l then
    let d := (l.drop 6).takeWhile Char.isDigit
    if d = [] then none else some d
  else none

/-- Leftmost-match scan for `_extract_job_id`. -/
def ghIdSearch : List Char → Option (List Char)
  | [] => none
  | c :: t =>
    match ghDigitsAt (c :: t) with
    | some d => some d
    | none => ghIdSearch t

/-- `GreenhouseScraper._extract_job_id(url)`. -/
def gh_extract_job_id (company_name url : String) : String :=
  match ghIdSearch url.data with
  | some d => "GH_" ++ ⟨d⟩
  | none => generate_job_id company_name url ""

/-- One element iteration of `GreenhouseScraper._scrape_via_browser`:
skip missing or already-seen hrefs, normalize, require `/jobs/` in the
lowercased URL, record the URL as seen, clean the text, require a title of
length at least 3, require a keyword match, then build the job.  Returns the
accepted job (if any) and the updated seen set. -/
def greenhouseBrowserAccept (company_name career_url base_domain : String)
    (seen : List String) (href : Option String) (text_content : Option String) :
    Option Job × List String :=
  match href with
  | none => (none, seen)
  | some h =>
    if h = "" || seen.contains h then (none, seen)
    else
      let job_url := normalize_url base_domain h none
      if !strContainsSub (lowerStr job_url) "/jobs/" then (none, seen)
      else
        let seen2 := job_url :: seen
        let title := optText text_content
        if title = "" || title.length < 3 then (none, seen2)
        else
          let matched := matches_keywords title
          if matched = [] then (none, seen2)
          else
            (some
              { job_id := gh_extract_job_id company_name job_url
                job_title := title
                job_url := job_url
                company_name := company_name
                company_career_url := career_url
                keywords_matched := matched },
             seen2)

/-! ## Helper lemmas -/

theorem containsIffMem (l : List String) (a : String) : l.contains a = true ↔ a ∈ l := by
  constructor <;> intro h <;> simpa using h

theorem extractNew_mem_snd :
    ∀ (cs seen : List String),
      (∀ u ∈ seen, u ∈ (extractNew seen cs).2) ∧ (∀ u ∈ cs, u ∈ (extractNew seen cs).2) := by
  intro cs
  induction cs with
  | nil => intro seen; exact ⟨fun u hu => by simpa [extractNew] using hu, by simp⟩
  | cons c rest ih =>
    intro seen
    by_cases hc : c ∈ seen
    · refine ⟨fun u hu => ?_, fun u hu => ?_⟩
      · simpa [extractNew, hc] using (ih seen).1 u hu
      · rcases List.mem_cons.mp hu with rfl | hu
        · simpa [extractNew, hc] using (ih seen).1 u hc
        · simpa [extractNew, hc] using (ih seen).2 u hu
    · refine ⟨fun u hu => ?_, fun u hu => ?_⟩
      · simpa [extractNew, hc] using (ih (c :: seen)).1 u (List.mem_cons_of_mem c hu)
      · rcases List.mem_cons.mp hu with rfl | hu
        · simpa [extractNew, hc] using (ih (u :: seen)).1 u (List.mem_cons_self u seen)
        · simpa [extractNew, hc] using (ih (c :: seen)).2 u hu

theorem extractNew_all_seen :
    ∀ (cs seen : List String), (∀ u ∈ cs, u ∈ seen) → extractNew seen cs = ([], seen) := by
  intro cs
  induction cs with
  | nil => intro seen _; rfl
  | cons c rest ih =>
    intro seen h
    have hc : c ∈ seen := h c (List.mem_cons_self c rest)
    have := ih seen (fun u hu => h u (List.mem_cons_of_mem c hu))
    simp [extractNew, hc, this]

theorem genericScrapeLoop_le (pages : Nat → List String) (hasMore : Nat → Bool) :
    ∀ (fuel page_count : Nat) (seen acc : List String),
      (genericScrapeLoop pages hasMore fuel page_count seen acc).1 ≤ page_count + fuel := by
  intro fuel
  induction fuel with
  | zero => intro page_count seen acc; simp [genericScrapeLoop]
  | succ n ih =>
    intro page_count seen acc
    simp only [genericScrapeLoop]
    by_cases h : hasMore (page_count + 1) = true
    · simpa [h] using
        le_trans (ih (page_count + 1) _ _) (by omega)
    · simp [h]

/-! ## Claim theorems -/

/-- C3: a hard page ceiling guarantees termination — for every abstract page
stream and pagination oracle, the generic traversal loop visits at most
`MAX_PAGES_PER_COMPANY = 50` pages, regardless of whether the site keeps
offering next-page controls. -/
theorem hard_page_ceiling (pages : Nat → List String) (hasMore : Nat → Bool) :
    (genericScrape pages hasMore).1 ≤ MAX_PAGES_PER_COMPANY := by
  simpa [genericScrape] using
    genericScrapeLoop_le pages hasMore MAX_PAGES_PER_COMPANY 0 [] []

/-- Witness for C3 at a concrete stream: a site that always offers another
page is stopped at the ceiling. -/
theorem hard_page_ceiling_witness :
    (genericScrape (fun _ => ["https://x.com/jobs/1"]) (fun _ => true)).1 ≤
      MAX_PAGES_PER_COMPANY :=
  hard_page_ceiling (fun _ => ["https://x.com/jobs/1"]) (fun _ => true)

/-- C2 counterexample: the generic scraper (the code the claim cites) has no
consecutive-empty-pass rule — against a source that repeats the same
fragment on every pass while the pagination probe keeps succeeding, the
traversal runs to the 50-page ceiling, not to within 2 passes. -/
theorem pagination_empty_pass_counterexample :
    (genericScrape (fun _ => ["https://x.com/jobs/1"]) (fun _ => true)).1 = 50 ∧
    ¬ (genericScrape (fun _ => ["https://x.com/jobs/1"]) (fun _ => true)).1 ≤ 2 :=
  ⟨by decide, by decide⟩

/-- C2 amended: the single-empty-pass rule lives in the iCIMS traversal loop
(`if new_count == 0 and page_count > 1: break`), not the generic one: for
any source that after page 1 yields only fragments already seen on page 1,
the iCIMS traversal stops within 2 passes. -/
theorem pagination_empty_pass_amended (pages : Nat → List String) (hasNext : Nat → Bool)
    (h : ∀ n, 2 ≤ n → ∀ u ∈ pages n, u ∈ pages 1) :
    (icimsScrape pages hasNext).1 ≤ 2 := by
  have hseen1 : ∀ u ∈ pages 1, u ∈ (extractNew ([] : List String) (pages 1)).2 :=
    (extractNew_mem_snd (pages 1) []).2
  show (icimsScrapeLoop pages hasNext MAX_PAGES_PER_COMPANY 0 [] []).1 ≤ 2
  show (icimsScrapeLoop pages hasNext 50 0 [] []).1 ≤ 2
  simp only [icimsScrapeLoop]
  by_cases h1 : hasNext (0 + 1) = true
  · have hempty :
        extractNew (extractNew ([] : List String) (pages 1)).2 (pages (1 + 1)) =
          ([], (extractNew ([] : List String) (pages 1)).2) :=
      extractNew_all_seen _ _ (fun u hu => hseen1 u (h (1 + 1) (by omega) u hu))
    simp [h1, icimsScrapeLoop, hempty]
  · simp [h1]

/-- Witness for C2's amended theorem: a two-fragment page repeated forever
with an ever-succeeding next-page probe stops at page 2. -/
theorem pagination_empty_pass_amended_witness :
    (icimsScrape (fun _ => ["https://x.com/jobs/1", "https://x.com/jobs/2"])
        (fun _ => true)).1 ≤ 2 :=
  pagination_empty_pass_amended _ _ (fun _ _ _ hu => hu)

/-- C1 counterexample: reconciliation is per-occurrence, not at-most-once,
within a single batch — a batch containing job `B` twice against snapshot
`{A}` places both occurrences in `new`. -/
theorem reconcile_within_batch_counterexample :
    filter_new_jobs [⟨"B"⟩, ⟨"B"⟩] ["A"] = [⟨"B"⟩, ⟨"B"⟩] ∧
    (filter_new_jobs [⟨"B"⟩, ⟨"B"⟩] ["A"]).countP (fun j => j.job_id == "B") ≠ 1 :=
  ⟨by decide, by decide⟩

/-- C1 amended: an id is never classified into both `new` and `refresh`; a
job is `new` iff its id is absent from the snapshot; duplicate occurrences
of an unseen id inside one company batch are each placed in `new`; and ids
placed in `new` are folded into the in-memory snapshot after the batch, so
the same id in a later company batch of the run is classified as `refresh`. -/
theorem reconcile_amended :
    (∀ (jobs : List JobRow) (existing_ids : List String) (j : JobRow),
        j ∈ filter_new_jobs jobs existing_ids →
        j.job_id ∉ find_existing_jobs jobs existing_ids) ∧
    (∀ (jobs : List JobRow) (existing_ids : List String) (j : JobRow), j ∈ jobs →
        (j ∈ filter_new_jobs jobs existing_ids ↔ j.job_id ∉ existing_ids)) ∧
    ((filter_new_jobs [⟨"B"⟩, ⟨"B"⟩] ["A"]).length = 2) ∧
    (∀ (existing_ids : List String) (b1 b2 : List JobRow) (j k : JobRow),
        j ∈ filter_new_jobs b1 existing_ids → k ∈ b2 → k.job_id = j.job_id →
        k.job_id ∈ find_existing_jobs b2 (processCompanyBatch existing_ids b1).updated_ids) := by
  refine ⟨?_, ?_, by decide, ?_⟩
  · intro jobs existing_ids j hj hmem
    have hj2 := List.mem_filter.mp hj
    have hnot : existing_ids.contains j.job_id = false := by
      simpa using hj2.2
    rcases List.mem_map.mp hmem with ⟨k, hk, hkid⟩
    have hk2 := List.mem_filter.mp hk
    rw [hkid] at hk2
    rw [hk2.2] at hnot
    exact Bool.noConfusion hnot
  · intro jobs existing_ids j hj
    constructor
    · intro hmem
      have h2 := (List.mem_filter.mp hmem).2
      simpa using h2
    · intro habs
      refine List.mem_filter.mpr ⟨hj, ?_⟩
      simpa using habs
  · intro existing_ids b1 b2 j k hj hk hid
    have hne : filter_new_jobs b1 existing_ids ≠ [] := by
      intro h; rw [h] at hj; exact List.not_mem_nil j hj
    have hupd : (processCompanyBatch existing_ids b1).updated_ids =
        existing_ids ++ (filter_new_jobs b1 existing_ids).map (fun job => job.job_id) := by
      simp [processCompanyBatch, hne]
    have hmemid : k.job_id ∈ (processCompanyBatch existing_ids b1).updated_ids := by
      rw [hupd]
      refine List.mem_append_right _ ?_
      exact List.mem_map.mpr ⟨j, hj, hid.symm⟩
    have hcontains : ((processCompanyBatch existing_ids b1).updated_ids).contains k.job_id = true :=
      (containsIffMem _ _).mpr hmemid
    exact List.mem_map.mpr ⟨k, List.mem_filter.mpr ⟨hk, hcontains⟩, rfl⟩

/-- Witness for C1's amended theorem: with snapshot `{A}`, `B` is new in the
first company batch and refreshed in the second. -/
theorem reconcile_amended_witness :
    (⟨"B"⟩ : JobRow) ∈ filter_new_jobs [⟨"B"⟩] ["A"] ∧
    "B" ∈ find_existing_jobs [⟨"B"⟩] (processCompanyBatch ["A"] [⟨"B"⟩]).updated_ids :=
  ⟨by decide,
   reconcile_amended.2.2.2 ["A"] [⟨"B"⟩] [⟨"B"⟩] ⟨"B"⟩ ⟨"B"⟩ (by decide)
     (by decide) rfl⟩

/-- C5 counterexample: a hint that matches no known strategy does not fall
back to URL inference — the unknown hint selects the generic scraper while
URL inference alone selects the Workday scraper. -/
theorem hint_fallback_counterexample :
    get_scraper_platform "https://acme.wd1.myworkdayjobs.com/en-US/careers"
        (some "unknownplatform") = "generic" ∧
    get_scraper_platform "https://acme.wd1.myworkdayjobs.com/en-US/careers" none = "workday" ∧
    ("generic" : String) ≠ "workday" :=
  ⟨by decide, by decide, by decide⟩

/-- C5 amended: a non-empty hint naming a known strategy is used verbatim
(case-insensitively); a non-empty hint naming no known strategy selects the
generic scraper regardless of the URL; URL inference runs only when the hint
is absent or empty, in which case the selected scraper is exactly the
detected platform's. -/
theorem hint_handling_amended :
    (∀ (url h : String), h ≠ "" →
        (PLATFORM_MATCHERS.map Prod.fst).contains (lowerStr h) = true →
        get_scraper_platform url (some h) = lowerStr h) ∧
    (∀ (url h : String), h ≠ "" →
        (PLATFORM_MATCHERS.map Prod.fst).contains (lowerStr h) = false →
        get_scraper_platform url (some h) = "generic") ∧
    (∀ url, get_scraper_platform url none = detect_platform url) ∧
    (∀ url, get_scraper_platform url (some "") = detect_platform url) := by
  have hlookup : ∀ (p : String),
      (PLATFORM_MATCHERS.map Prod.fst).contains p = true →
      ∃ entry, PLATFORM_MATCHERS.find? (fun e => e.1 = p) = some entry ∧ entry.1 = p := by
    intro p hp
    have hmem : p ∈ PLATFORM_MATCHERS.map Prod.fst := (containsIffMem _ _).mp hp
    rcases List.mem_map.mp hmem with ⟨entry, hentry, hfst⟩
    have hne : PLATFORM_MATCHERS.find? (fun e => decide (e.1 = p)) ≠ none := by
      intro hnone
      have := List.find?_eq_none.mp hnone entry hentry
      simp [hfst] at this
    rcases Option.ne_none_iff_exists'.mp hne with ⟨x, hx⟩
    refine ⟨x, hx, ?_⟩
    have := List.find?_some hx
    simpa using this
  have hnolookup : ∀ (p : String),
      (PLATFORM_MATCHERS.map Prod.fst).contains p = false →
      PLATFORM_MATCHERS.find? (fun e => e.1 = p) = none := by
    intro p hp
    refine List.find?_eq_none.mpr ?_
    intro x hx hpx
    have hx1 : x.1 = p := by simpa using hpx
    have : p ∈ PLATFORM_MATCHERS.map Prod.fst := List.mem_map.mpr ⟨x, hx, hx1⟩
    rw [(containsIffMem _ _).mpr this] at hp
    exact Bool.noConfusion hp
  have hdetect_cases : ∀ url, detect_platform url = "generic" ∨
      ∃ e ∈ PLATFORM_MATCHERS, detect_platform url = e.1 := by
    intro url
    simp only [detect_platform]
    rcases hfind : PLATFORM_MATCHERS.find?
        (fun entry => entry.2.any (fun pattern => patternHits (lowerStr url) pattern)) with _ | e
    · left; rw [hfind]
    · right; exact ⟨e, List.mem_of_find?_eq_some hfind, by rw [hfind]⟩
  have hdetect : ∀ url, get_scraper_platform url none = detect_platform url := by
    intro url
    have hg : get_scraper_platform url none =
        (match PLATFORM_MATCHERS.find? (fun e => e.1 = detect_platform url) with
         | some entry => entry.1
         | none => "generic") := rfl
    rcases hdetect_cases url with hgen | ⟨e, he, hval⟩
    · rw [hg, hgen]
      have hnone : PLATFORM_MATCHERS.find? (fun e => e.1 = ("generic" : String)) = none :=
        hnolookup _ (by decide)
      rw [hnone]
    · rw [hg, hval]
      rcases hlookup e.1 ((containsIffMem _ _).mpr
          (List.mem_map.mpr ⟨e, he, rfl⟩)) with ⟨x, hx, hx1⟩
      rw [hx]
      exact hx1
  refine ⟨?_, ?_, hdetect, ?_⟩
  · intro url h hne hknown
    rcases hlookup (lowerStr h) hknown with ⟨entry, hfind, hfst⟩
    have hif : (if h = "" then (none : Option String) else some (lowerStr h)) =
        some (lowerStr h) := if_neg hne
    have hg : get_scraper_platform url (some h) =
        (match PLATFORM_MATCHERS.find? (fun e => e.1 = lowerStr h) with
         | some entry => entry.1
         | none => "generic") := by
      unfold get_scraper_platform
      simp only [hif]
    rw [hg, hfind]
    exact hfst
  · intro url h hne hunknown
    have hfind := hnolookup (lowerStr h) hunknown
    have hif : (if h = "" then (none : Option String) else some (lowerStr h)) =
        some (lowerStr h) := if_neg hne
    have hg : get_scraper_platform url (some h) =
        (match PLATFORM_MATCHERS.find? (fun e => e.1 = lowerStr h) with
         | some entry => entry.1
         | none => "generic") := by
      unfold get_scraper_platform
      simp only [hif]
    rw [hg, hfind]
  · intro url
    have hg : get_scraper_platform url (some "") = get_scraper_platform url none := rfl
    rw [hg]
    exact hdetect url

/-- Witness for C5's amended theorem: a capitalised known hint selects that
platform verbatim and an unknown hint selects the generic scraper. -/
theorem hint_handling_amended_witness :
    get_scraper_platform "https://example.com" (some "Greenhouse") = "greenhouse" ∧
    get_scraper_platform "https://acme.wd1.myworkdayjobs.com" (some "zzz") = "generic" :=
  ⟨by
    have := hint_handling_amended.1 "https://example.com" "Greenhouse"
      (by decide) (by decide)
    simpa using this,
   hint_handling_amended.2.1 "https://acme.wd1.myworkdayjobs.com" "zzz"
     (by decide) (by decide)⟩

/-- C4: platform classification is pure (a function of the URL alone),
first-match-wins over the ordered table — an entry preceded only by entries
with no matching pattern wins as soon as one of its patterns occurs in the
lowercased URL — and the generic fallback is returned iff no pattern of any
table entry occurs in the URL. -/
theorem detect_platform_spec :
    (∀ (url : String) (pre : List (String × List String)) (entry : String × List String)
        (post : List (String × List String)),
        PLATFORM_MATCHERS = pre ++ entry :: post →
        (∃ pattern ∈ entry.2, patternHits (lowerStr url) pattern = true) →
        (∀ q ∈ pre, ∀ pattern ∈ q.2, patternHits (lowerStr url) pattern = false) →
        detect_platform url = entry.1) ∧
    (∀ url, detect_platform url = "generic" ↔
        ∀ entry ∈ PLATFORM_MATCHERS, ∀ pattern ∈ entry.2,
          patternHits (lowerStr url) pattern = false) := by
  constructor
  · intro url pre entry post htable hhit hpre
    have hp : entry.2.any (fun pattern => patternHits (lowerStr url) pattern) = true := by
      rcases hhit with ⟨pattern, hmem, hval⟩
      exact List.any_eq_true.mpr ⟨pattern, hmem, hval⟩
    have hprenone : List.find?
        (fun e => e.2.any (fun pattern => patternHits (lowerStr url) pattern)) pre = none := by
      refine List.find?_eq_none.mpr ?_
      intro q hq hquy
      rcases List.any_eq_true.mp hquy with ⟨pattern, hpm, hpv⟩
      rw [hpre q hq pattern hpm] at hpv
      exact Bool.noConfusion hpv
    have hfind : List.find?
        (fun e => e.2.any (fun pattern => patternHits (lowerStr url) pattern))
        PLATFORM_MATCHERS = some entry := by
      rw [htable, List.find?_append, hprenone]
      simp [List.find?_cons_of_pos, hp]
    simp only [detect_platform]
    rw [hfind]
  · intro url
    rcases hfind : List.find?
        (fun e => e.2.any (fun pattern => patternHits (lowerStr url) pattern))
        PLATFORM_MATCHERS with _ | e
    · constructor
      · intro _ entry hentry pattern hpattern
        have hnot := List.find?_eq_none.mp hfind entry hentry
        rcases Bool.eq_false_or_eq_true (patternHits (lowerStr url) pattern) with h | h
        · exact absurd (List.any_eq_true.mpr ⟨pattern, hpattern, h⟩) hnot
        · exact h
      · intro _
        simp only [detect_platform]
        rw [hfind]
    · have he := List.mem_of_find?_eq_some hfind
      have hpe := List.find?_some hfind
      have hdet : detect_platform url = e.1 := by
        simp only [detect_platform]
        rw [hfind]
      have hne : e.1 ≠ "generic" := by
        have hnames : ∀ q ∈ PLATFORM_MATCHERS, q.1 ≠ "generic" := by decide
        exact hnames e he
      constructor
      · intro hdet2
        exact absurd (hdet ▸ hdet2) hne
      · intro hall
        exfalso
        rcases List.any_eq_true.mp hpe with ⟨pattern, hpm, hpv⟩
        rw [hall e he pattern hpm] at hpv
        exact Bool.noConfusion hpv

/-- Witness for C4: a URL containing both the Plaid pattern and a Greenhouse
pattern resolves to the earlier, more specific Plaid entry. -/
theorem detect_platform_spec_witness :
    detect_platform "https://plaid.com/careers/boards.greenhouse.io" = "plaid" :=
  detect_platform_spec.1 "https://plaid.com/careers/boards.greenhouse.io"
    [] ("plaid", PLAID_PATTERNS)
    [("workday", WORKDAY_PATTERNS), ("eightfold", EIGHTFOLD_PATTERNS),
     ("greenhouse", GREENHOUSE_PATTERNS), ("lever", LEVER_PATTERNS),
     ("icims", ICIMS_PATTERNS), ("taleo", TALEO_PATTERNS),
     ("smartrecruiters", SMARTRECRUITERS_PATTERNS)]
    rfl ⟨"plaid.com/careers", by decide, by decide⟩
    (fun q hq => absurd hq (List.not_mem_nil q))

/-- C6: keyword matching is case-insensitive with word boundaries on both
ends — `"AI Engineer"` matches `"ai"`, `"maintainer"` matches nothing,
`"Data Scientist"` matches both `"data scientist"` and `"data"` — and the
result is the ordered sublist of configured keywords whose boundary pattern
occurs, empty exactly when no keyword matches. -/
theorem keyword_boundary_spec :
    ("ai" ∈ matches_keywords "AI Engineer") ∧
    ("ai" ∉ matches_keywords "maintainer") ∧
    (matches_keywords "maintainer" = []) ∧
    ("data scientist" ∈ matches_keywords "Data Scientist") ∧
    ("data" ∈ matches_keywords "Data Scientist") ∧
    (∀ text keywords, matches_any_keyword text keywords = [] ↔
        ∀ k ∈ keywords, kwMatch text k = false) ∧
    (∀ text keywords, (matches_any_keyword text keywords).Sublist keywords) ∧
    (∀ text keywords k, k ∈ matches_any_keyword text keywords ↔
        k ∈ keywords ∧ kwMatch text k = true) := by
  refine ⟨by decide, by decide, by decide, by decide, by decide, ?_, ?_, ?_⟩
  · intro text keywords
    constructor
    · intro h k hk
      have := List.filter_eq_nil_iff.mp h k hk
      simpa using this
    · intro h
      refine List.filter_eq_nil_iff.mpr ?_
      intro k hk
      simp [h k hk]
  · intro text keywords
    exact List.filter_sublist keywords
  · intro text keywords k
    exact List.mem_filter

/-- Witness for C6's quantified parts at a concrete title with no relevant
keyword. -/
theorem keyword_boundary_spec_witness :
    matches_any_keyword "Chief of Staff" KEYWORDS = [] :=
  (keyword_boundary_spec.2.2.2.2.2.1 "Chief of Staff" KEYWORDS).mpr (by decide)

/-- All-transient behaviour of the retry loop: with every attempt failing
transiently, the loop performs its full attempt budget, sleeping the
doubling capped delays, and raises the last stored exception. -/
theorem retryAux_all_transient {α : Type} (f : Nat → Except PyError α)
    (maxR base maxD : Nat) (errs : Nat → PyError)
    (hf : ∀ i, f i = .error (errs i)) (ht : ∀ i, retryTransient (errs i) = true) :
    ∀ (fuel attempt : Nat) (last : Option PyError) (delays : List Nat),
      attempt + fuel = maxR → 1 ≤ fuel →
      retryAux f maxR base maxD fuel attempt last delays =
        (.error (some (errs (maxR - 1))),
         delays ++ (List.range (fuel - 1)).map (fun j => backoffDelay base maxD (attempt + j))) := by
  intro fuel
  induction fuel with
  | zero => intro attempt last delays _ h1; omega
  | succ k ih =>
    intro attempt last delays hsum _
    simp only [retryAux, hf attempt, ht attempt, if_true]
    match k, ih with
    | 0, _ =>
      have hlt : ¬ (attempt + 1 < maxR) := by omega
      have hatt : attempt = maxR - 1 := by omega
      rw [if_neg hlt]
      simp [hatt]
    | j + 1, ih =>
      have hlt : attempt + 1 < maxR := by omega
      rw [if_pos hlt]
      rw [ih (attempt + 1) (some (errs attempt)) _ (by omega) (by omega)]
      have hmap : (List.range (j + 1)).map (fun i => backoffDelay base maxD (attempt + i)) =
          backoffDelay base maxD attempt ::
            (List.range j).map (fun i => backoffDelay base maxD (attempt + 1 + i)) := by
        have hfun : (fun i => backoffDelay base maxD (attempt + i)) ∘ Nat.succ =
            (fun i => backoffDelay base maxD (attempt + 1 + i)) := by
          funext i
          have hi : attempt + (i + 1) = attempt + 1 + i := by omega
          simp only [Function.comp_apply, Nat.succ_eq_add_one, hi]
        rw [List.range_succ_eq_map, List.map_cons, List.map_map, hfun]
        simp
      simp only [Nat.add_sub_cancel, hmap]
      simp

/-- C8: ledger I/O retry policy — HTTP 5xx and 429, SSL and connection
errors are transient; HTTP 4xx other than 429 is permanent and raised
immediately with no retry and no sleep; an all-transient run performs the
bounded attempt count with per-attempt doubling delays capped at the
maximum, then raises the last transient error. -/
theorem retry_policy_spec :
    (∀ (α : Type) (f : Nat → Except PyError α) (maxR base maxD : Nat) (e : PyError),
        1 ≤ maxR → retryTransient e = false → f 0 = .error e →
        retry_with_backoff f maxR base maxD = (.error (some e), [])) ∧
    (∀ status, 400 ≤ status → status < 500 → status ≠ 429 →
        retryTransient (.httpError status) = false) ∧
    (∀ status, 500 ≤ status → retryTransient (.httpError status) = true) ∧
    (retryTransient (.httpError 429) = true) ∧
    (∀ msg, retryTransient (.sslError msg) = true ∧
        retryTransient (.connectionError msg) = true) ∧
    (∀ (α : Type) (f : Nat → Except PyError α) (maxR base maxD : Nat) (errs : Nat → PyError),
        1 ≤ maxR → (∀ i, f i = .error (errs i)) → (∀ i, retryTransient (errs i) = true) →
        retry_with_backoff f maxR base maxD =
          (.error (some (errs (maxR - 1))),
           (List.range (maxR - 1)).map (fun i => backoffDelay base maxD i))) := by
  refine ⟨?_, ?_, ?_, by decide, ?_, ?_⟩
  · intro α f maxR base maxD e h1 htrans hf
    rcases Nat.exists_eq_add_of_le h1 with ⟨m, rfl⟩
    show retryAux f (1 + m) base maxD (1 + m) 0 none [] = (.error (some e), [])
    rw [Nat.add_comm 1 m]
    simp only [retryAux, hf, htrans]
    simp
  · intro status h1 h2 h3
    simp only [retryTransient]
    simp only [Bool.or_eq_false_iff, decide_eq_false_iff_not]
    omega
  · intro status h
    simp only [retryTransient]
    simp [h]
  · intro msg
    exact ⟨rfl, rfl⟩
  · intro α f maxR base maxD errs h1 hf ht
    have := retryAux_all_transient f maxR base maxD errs hf ht maxR 0 none [] (by omega) h1
    simpa using this

/-- Witness for C8: a permanent 404 raises at once with no sleeps; an
all-transient 503 run with the source defaults (5 attempts, base 1s, cap
60s) sleeps 1, 2, 4, 8 and raises the final 503. -/
theorem retry_policy_spec_witness :
    retry_with_backoff (fun _ => (Except.error (PyError.httpError 404) : Except PyError Nat))
        5 1 60 = (.error (some (.httpError 404)), []) ∧
    retry_with_backoff (fun _ => (Except.error (PyError.httpError 503) : Except PyError Nat))
        5 1 60 = (.error (some (.httpError 503)), [1, 2, 4, 8]) :=
  ⟨retry_policy_spec.1 Nat
     (fun _ => (Except.error (PyError.httpError 404) : Except PyError Nat))
     5 1 60 (.httpError 404) (by omega) (by decide) rfl,
   by
     have h := retry_policy_spec.2.2.2.2.2 Nat
       (fun _ => (Except.error (PyError.httpError 503) : Except PyError Nat)) 5 1 60
       (fun _ => PyError.httpError 503)
       (by omega) (fun _ => rfl)
       (fun _ => (by decide : retryTransient (PyError.httpError 503) = true))
     rw [h]
     simp only [Prod.mk.injEq]
     refine ⟨trivial, by decide⟩⟩

/-- C7 counterexample: `generate_job_id` discards the scheme, not just the
query — the normalization is `netloc + path` — so two URLs differing only in
scheme get the same id, and the id differs from the hash the claim
describes (which keeps `scheme+host+path`) at a concrete input. -/
theorem job_id_scheme_counterexample :
    generate_job_id "Acme" "http://example.com/jobs/1" "T" =
      generate_job_id "Acme" "https://example.com/jobs/1" "T" ∧
    specGenerateJobId "Acme" "http://example.com/jobs/1" "T" ≠
      specGenerateJobId "Acme" "https://example.com/jobs/1" "T" ∧
    generate_job_id "Acme" "https://example.com/jobs/1" "T" ≠
      specGenerateJobId "Acme" "https://example.com/jobs/1" "T" :=
  ⟨by decide, by decide, by decide⟩

/-- C7 amended: the id is the MD5 hex digest of
`company + "|" + netloc + path + "|" + title` truncated to 16 characters —
deterministic, insensitive to the query string (and to the scheme, which is
discarded along with it), 16 characters long, and sensitive to each of
company, URL path and title at the spec's concrete ID-stability examples
(as a truncated content hash it cannot be injective in general). -/
theorem job_id_amended :
    (∀ c u t, generate_job_id c u t = generate_job_id c u t) ∧
    (∀ c t u1 u2, (urlparseM u1).netloc = (urlparseM u2).netloc →
        (urlparseM u1).path = (urlparseM u2).path →
        generate_job_id c u1 t = generate_job_id c u2 t) ∧
    (generate_job_id "Acme" "https://example.com/jobs/1?sess=42" "T" =
       generate_job_id "Acme" "https://example.com/jobs/1?utm=x" "T") ∧
    (generate_job_id "Acme2" "https://example.com/jobs/1" "T" ≠
       generate_job_id "Acme" "https://example.com/jobs/1" "T") ∧
    (generate_job_id "Acme" "https://example.com/jobs/2" "T" ≠
       generate_job_id "Acme" "https://example.com/jobs/1" "T") ∧
    (generate_job_id "Acme" "https://example.com/jobs/1" "T2" ≠
       generate_job_id "Acme" "https://example.com/jobs/1" "T") ∧
    (∀ c u t, (generate_job_id c u t).length = 16) := by
  refine ⟨fun c u t => rfl, ?_, by decide, by decide, by decide, by decide, ?_⟩
  · intro c t u1 u2 h1 h2
    simp only [generate_job_id]
    rw [h1, h2]
  · intro c u t
    rfl

/-- Witness for C7's amended theorem: the query-insensitivity part applied
at URLs agreeing on host and path. -/
theorem job_id_amended_witness :
    generate_job_id "Plaid" "https://plaid.com/careers/openings/data?a=1" "Data Analyst" =
      generate_job_id "Plaid" "https://plaid.com/careers/openings/data#top" "Data Analyst" :=
  job_id_amended.2.1 "Plaid" "Data Analyst"
    "https://plaid.com/careers/openings/data?a=1"
    "https://plaid.com/careers/openings/data#top" (by decide) (by decide)

/-- C9 counterexample: the aria-label fallback of
`GenericScraper._extract_title` enforces no length bounds — an element with
no text and aria-label `"X"` produces a fragment whose title has length 1,
violating the claimed lower bound of 3. -/
theorem fragment_title_counterexample :
    ((parse_job_element "Acme" "https://acme.com/careers" "https://acme.com"
        ⟨some "/jobs/1", none, some "X", none⟩ "").map (fun j => j.job_title)) = some "X" ∧
    ¬ (3 ≤ ("X" : String).length) ∧
    (((greenhouseBrowserAccept "Acme" "https://acme.com/careers" "https://acme.com"
        [] (some "/jobs/123")
        (some ("Data " ++ String.mk (List.replicate 240 'x')))).1.map
          (fun j => j.job_title.length)) = some 245 ∧ ¬ (245 ≤ 200)) :=
  ⟨by decide, by decide, by decide, by decide⟩

/-- C9 amended: every accepted fragment has a non-empty title; the
text-content path of the generic extractor enforces the bounds
5 < length < 200; the link-enumeration fallback enforces 5 ≤ length ≤ 200
and leaves `location` as the dataclass default `""`; the greenhouse browser
path enforces only the lower bound 3; URLs are kept absolute — `http(s)://`
URLs pass through unchanged, empty URLs stay empty, and relative URLs are
resolved against the origin (shown at a concrete origin). -/
theorem fragment_shape_amended :
    (∀ c cu bd el loc job,
        parse_job_element c cu bd el loc = some job → job.job_title ≠ "") ∧
    (∀ el t, el.text_content = some t → t ≠ "" →
        5 < (clean_text t).length → (clean_text t).length < 200 →
        extract_title el = clean_text t) ∧
    (∀ c cu bd seen href txt job seen2,
        genericLinkAccept c cu bd seen href txt = (some job, seen2) →
        5 ≤ job.job_title.length ∧ job.job_title.length ≤ 200 ∧ job.location = "") ∧
    (∀ c cu bd seen href txt job seen2,
        greenhouseBrowserAccept c cu bd seen href txt = (some job, seen2) →
        3 ≤ job.job_title.length) ∧
    (∀ bd u b, (startsWithLit u "http://" || startsWithLit u "https://") = true →
        normalize_url bd u b = u) ∧
    (∀ bd b, normalize_url bd "" b = "") ∧
    (normalize_url "https://acme.com" "/jobs/1" none = "https://acme.com/jobs/1") := by
  refine ⟨?_, ?_, ?_, ?_, ?_, ?_, by decide⟩
  · intro c cu bd el loc job h
    rcases hhref : el.href with _ | href
    · simp only [parse_job_element, hhref] at h
      exact Option.noConfusion h
    · simp only [parse_job_element, hhref] at h
      split at h
      · exact absurd h (by simp)
      · split at h
        · exact absurd h (by simp)
        · next htitle =>
          have hj := Option.some.inj h
          rw [← hj]
          exact htitle
  · intro el t het hne h5 h200
    simp [extract_title, het, hne, h5, h200]
  · intro c cu bd seen href txt job seen2 h
    rcases hh : href with _ | hstr
    · rw [hh] at h; simp [genericLinkAccept] at h
    · simp only [genericLinkAccept, hh] at h
      split at h
      · exact absurd h (by simp)
      · split at h
        · exact absurd h (by simp)
        · split at h
          · exact absurd h (by simp)
          · next hcond =>
            split at h
            · exact absurd h (by simp)
            · have h1 := congrArg Prod.fst h
              simp at h1
              subst h1
              simp only [Bool.or_eq_true, decide_eq_true_eq, not_or] at hcond
              obtain ⟨⟨hc1, hc2⟩, hc3⟩ := hcond
              refine ⟨?_, ?_, rfl⟩
              · show 5 ≤ (optText txt).length
                omega
              · show (optText txt).length ≤ 200
                omega
  · intro c cu bd seen href txt job seen2 h
    rcases hh : href with _ | hstr
    · rw [hh] at h; simp [greenhouseBrowserAccept] at h
    · simp only [greenhouseBrowserAccept, hh] at h
      split at h
      · exact absurd h (by simp)
      · split at h
        · exact absurd h (by simp)
        · split at h
          · exact absurd h (by simp)
          · next hcond =>
            split at h
            · exact absurd h (by simp)
            · have h1 := congrArg Prod.fst h
              simp at h1
              subst h1
              simp only [Bool.or_eq_true, decide_eq_true_eq, not_or] at hcond
              obtain ⟨hc1, hc2⟩ := hcond
              show 3 ≤ (optText txt).length
              omega
  · intro bd u b habs
    have hne : u ≠ "" := by
      intro hu
      rw [hu] at habs
      exact absurd habs (by decide)
    simp [normalize_url, hne, habs]
  · intro bd b
    simp [normalize_url]

/-- Witness for C9's amended theorem: the text-content path applied at a
concrete in-bounds title. -/
theorem fragment_shape_amended_witness :
    extract_title ⟨some "/jobs/9", some "Data Analyst Role", none, none⟩ =
      "Data Analyst Role" := by
  have h := fragment_shape_amended.2.1
    ⟨some "/jobs/9", some "Data Analyst Role", none, none⟩ "Data Analyst Role"
    rfl (by decide) (by decide) (by decide)
  have hc : clean_text "Data Analyst Role" = "Data Analyst Role" := by decide
  rw [hc] at h
  exact h

/-! ## clean_text normal-form lemmas -/

theorem pyWordsAux_good :
    ∀ (l acc : List Char), (∀ c ∈ acc, isPySpace c = false) →
      ∀ w ∈ pyWordsAux l acc, w ≠ [] ∧ ∀ c ∈ w, isPySpace c = false := by
  intro l
  induction l with
  | nil =>
    intro acc hacc w hw
    by_cases h : acc = ([] : List Char)
    · simp [pyWordsAux, h] at hw
    · simp only [pyWordsAux, if_neg h, List.mem_singleton] at hw
      subst hw
      refine ⟨by simpa using h, fun c hc => hacc c (List.mem_reverse.mp hc)⟩
  | cons c t ih =>
    intro acc hacc w hw
    by_cases hsp : isPySpace c = true
    · by_cases h : acc = ([] : List Char)
      · simp only [pyWordsAux, hsp, if_true, if_pos h] at hw
        exact ih [] (by simp) w hw
      · simp only [pyWordsAux, hsp, if_true, if_neg h, List.mem_cons] at hw
        rcases hw with rfl | hw
        · refine ⟨by simpa using h, fun x hx => hacc x (List.mem_reverse.mp hx)⟩
        · exact ih [] (by simp) w hw
    · simp only [pyWordsAux, hsp, if_false] at hw
      refine ih (c :: acc) ?_ w hw
      intro x hx
      rcases List.mem_cons.mp hx with rfl | hx
      · simpa using hsp
      · exact hacc x hx

theorem joinSpace_ne_nil (w : List Char) (ws : List (List Char)) (hw : w ≠ []) :
    joinSpace (w :: ws) ≠ [] := by
  cases ws with
  | nil => simpa [joinSpace] using hw
  | cons w2 rest =>
    simp only [joinSpace]
    exact List.append_ne_nil_of_left_ne_nil hw _

theorem joinSpace_head (ws : List (List Char))
    (hgood : ∀ w ∈ ws, w ≠ [] ∧ ∀ c ∈ w, isPySpace c = false) :
    ∀ c, (joinSpace ws).head? = some c → isPySpace c = false := by
  intro c hc
  match ws with
  | [] => simp [joinSpace] at hc
  | [w] =>
    have hw := hgood w (by simp)
    exact hw.2 c (by
      have := List.mem_of_mem_head? (l := w) (by rw [show joinSpace [w] = w from rfl] at hc; exact hc)
      exact this)
  | w :: w2 :: rest =>
    have hw := hgood w (by simp)
    rw [show joinSpace (w :: w2 :: rest) = w ++ ' ' :: joinSpace (w2 :: rest) from rfl,
      List.head?_append] at hc
    cases hhw : w.head? with
    | none => exact absurd hhw (by cases w with
        | nil => exact absurd rfl hw.1
        | cons d t => simp)
    | some d =>
      rw [hhw] at hc
      have hdc : d = c := by simpa [Option.or] using hc
      exact hdc ▸ hw.2 d (List.mem_of_mem_head? hhw)

theorem joinSpace_getLast (ws : List (List Char))
    (hgood : ∀ w ∈ ws, w ≠ [] ∧ ∀ c ∈ w, isPySpace c = false) :
    ∀ c, (joinSpace ws).getLast? = some c → isPySpace c = false := by
  induction ws with
  | nil => intro c hc; simp [joinSpace] at hc
  | cons w rest ih =>
    intro c hc
    cases rest with
    | nil =>
      have hw := hgood w (by simp)
      rw [show joinSpace [w] = w from rfl] at hc
      exact hw.2 c (List.mem_of_mem_getLast? hc)
    | cons w2 rest2 =>
      have hsub : ∀ v ∈ w2 :: rest2, v ≠ [] ∧ ∀ x ∈ v, isPySpace x = false :=
        fun v hv => hgood v (List.mem_cons_of_mem w hv)
      have hjoin : joinSpace (w2 :: rest2) ≠ [] :=
        joinSpace_ne_nil w2 rest2 (hsub w2 (by simp)).1
      rw [show joinSpace (w :: w2 :: rest2) = w ++ ' ' :: joinSpace (w2 :: rest2) from rfl,
        List.getLast?_append] at hc
      cases hj : joinSpace (w2 :: rest2) with
      | nil => exact absurd hj hjoin
      | cons d t =>
        rw [hj, List.getLast?_cons_cons] at hc
        cases hl : (d :: t).getLast? with
        | none => exact absurd hl (by simp)
        | some e =>
          rw [hl] at hc
          have hec : e = c := by simpa [Option.or] using hc
          refine ih hsub c ?_
          rw [hj, hl, hec]

theorem chain_nonspace (w : List Char) (hw : ∀ c ∈ w, isPySpace c = false) :
    List.Chain' (fun a b => ¬(isPySpace a = true ∧ isPySpace b = true)) w := by
  induction w with
  | nil => simp
  | cons c t ih =>
    rw [List.chain'_cons']
    refine ⟨fun y _ hy => ?_, ih (fun x hx => hw x (List.mem_cons_of_mem c hx))⟩
    rw [hw c (List.mem_cons_self c t)] at hy
    exact Bool.noConfusion hy.1

theorem joinSpace_chain (ws : List (List Char))
    (hgood : ∀ w ∈ ws, w ≠ [] ∧ ∀ c ∈ w, isPySpace c = false) :
    List.Chain' (fun a b => ¬(isPySpace a = true ∧ isPySpace b = true)) (joinSpace ws) := by
  induction ws with
  | nil => simp [joinSpace]
  | cons w rest ih =>
    cases rest with
    | nil => exact chain_nonspace w (hgood w (by simp)).2
    | cons w2 rest2 =>
      have hw := hgood w (by simp)
      have hsub : ∀ v ∈ w2 :: rest2, v ≠ [] ∧ ∀ x ∈ v, isPySpace x = false :=
        fun v hv => hgood v (List.mem_cons_of_mem w hv)
      rw [show joinSpace (w :: w2 :: rest2) = w ++ ' ' :: joinSpace (w2 :: rest2) from rfl,
        List.chain'_append]
      refine ⟨chain_nonspace w hw.2, ?_, ?_⟩
      · rw [List.chain'_cons']
        refine ⟨fun y hy hsp => ?_, ih hsub⟩
        have : isPySpace y = false :=
          joinSpace_head (w2 :: rest2) hsub y hy
        rw [this] at hsp
        exact Bool.noConfusion hsp.2
      · intro x hx y _ hsp
        have hx' : x ∈ w := List.mem_of_mem_getLast? hx
        rw [hw.2 x hx'] at hsp
        exact Bool.noConfusion hsp.1

theorem dropWhile_eq_self_of_head (l : List Char)
    (h : ∀ c, l.head? = some c → isPySpace c = false) :
    l.dropWhile isPySpace = l := by
  cases l with
  | nil => rfl
  | cons c t => simp [List.dropWhile_cons, h c rfl]

theorem pyStrip_eq_self (l : List Char)
    (hhead : ∀ c, l.head? = some c → isPySpace c = false)
    (hlast : ∀ c, l.getLast? = some c → isPySpace c = false) :
    pyStripChars l = l := by
  have h1 : l.dropWhile isPySpace = l := dropWhile_eq_self_of_head l hhead
  have h2 : l.reverse.dropWhile isPySpace = l.reverse := by
    refine dropWhile_eq_self_of_head _ ?_
    intro c hc
    rw [List.head?_reverse] at hc
    exact hlast c hc
  rw [pyStripChars, h1, h2, List.reverse_reverse]

theorem pyWordsAux_append_word :
    ∀ (w l acc : List Char), (∀ c ∈ w, isPySpace c = false) →
      pyWordsAux (w ++ l) acc = pyWordsAux l (w.reverse ++ acc) := by
  intro w
  induction w with
  | nil => intro l acc _; simp
  | cons c w2 ih =>
    intro l acc hw
    have hc : isPySpace c = false := hw c (List.mem_cons_self c w2)
    show pyWordsAux (c :: (w2 ++ l)) acc = pyWordsAux l ((c :: w2).reverse ++ acc)
    rw [show pyWordsAux (c :: (w2 ++ l)) acc = pyWordsAux (w2 ++ l) (c :: acc) from by
      simp [pyWordsAux, hc]]
    rw [ih l (c :: acc) (fun x hx => hw x (List.mem_cons_of_mem c hx))]
    simp [List.reverse_cons, List.append_assoc]

theorem pyWords_joinSpace :
    ∀ (ws : List (List Char)),
      (∀ w ∈ ws, w ≠ [] ∧ ∀ c ∈ w, isPySpace c = false) →
      pyWords (joinSpace ws) = ws := by
  intro ws
  induction ws with
  | nil => intro _; rfl
  | cons w rest ih =>
    intro hgood
    have hw := hgood w (by simp)
    cases rest with
    | nil =>
      show pyWordsAux (joinSpace [w]) [] = [w]
      rw [show joinSpace [w] = w from rfl, ← List.append_nil w,
        pyWordsAux_append_word w [] [] hw.2]
      have hne : w.reverse ++ ([] : List Char) ≠ [] := by
        simpa using hw.1
      simp [pyWordsAux, hne, hw.1]
    | cons w2 rest2 =>
      have hsub : ∀ v ∈ w2 :: rest2, v ≠ [] ∧ ∀ x ∈ v, isPySpace x = false :=
        fun v hv => hgood v (List.mem_cons_of_mem w hv)
      show pyWordsAux (joinSpace (w :: w2 :: rest2)) [] = w :: w2 :: rest2
      rw [show joinSpace (w :: w2 :: rest2) = w ++ ' ' :: joinSpace (w2 :: rest2) from rfl,
        pyWordsAux_append_word w _ [] hw.2]
      have hne : w.reverse ++ ([] : List Char) ≠ [] := by
        simpa using hw.1
      have hsp : isPySpace ' ' = true := by decide
      rw [show pyWordsAux (' ' :: joinSpace (w2 :: rest2)) (w.reverse ++ []) =
            (w.reverse ++ []).reverse :: pyWordsAux (joinSpace (w2 :: rest2)) [] from by
        simp only [pyWordsAux, hsp, if_true, if_neg hne]]
      rw [show pyWordsAux (joinSpace (w2 :: rest2)) [] = pyWords (joinSpace (w2 :: rest2)) from rfl,
        ih hsub]
      simp

theorem clean_text_data (s : String) (hs : s ≠ "") :
    (clean_text s).data = joinSpace (pyWords s.data) := by
  have hgood : ∀ w ∈ pyWords s.data, w ≠ [] ∧ ∀ c ∈ w, isPySpace c = false :=
    pyWordsAux_good s.data [] (by simp)
  rw [clean_text, if_neg hs]
  show pyStripChars (joinSpace (pyWords s.data)) = joinSpace (pyWords s.data)
  exact pyStrip_eq_self _ (joinSpace_head _ hgood) (joinSpace_getLast _ hgood)

/-- C10: `clean_text` is idempotent and yields a normal form — no leading or
trailing whitespace, no two consecutive whitespace characters — and maps the
empty (falsy) string to the empty string. -/
theorem clean_text_idempotent_normal :
    (∀ s, clean_text (clean_text s) = clean_text s) ∧
    (∀ s c, (clean_text s).data.head? = some c → isPySpace c = false) ∧
    (∀ s c, (clean_text s).data.getLast? = some c → isPySpace c = false) ∧
    (∀ s, List.Chain' (fun a b => ¬(isPySpace a = true ∧ isPySpace b = true))
        (clean_text s).data) ∧
    (clean_text "" = "") := by
  have hgood : ∀ s : String, ∀ w ∈ pyWords s.data, w ≠ [] ∧ ∀ c ∈ w, isPySpace c = false :=
    fun s => pyWordsAux_good s.data [] (by simp)
  have hhead : ∀ s c, (clean_text s).data.head? = some c → isPySpace c = false := by
    intro s c hc
    by_cases hs : s = ""
    · rw [hs] at hc
      simp [clean_text] at hc
    · rw [clean_text_data s hs] at hc
      exact joinSpace_head _ (hgood s) c hc
  have hlast : ∀ s c, (clean_text s).data.getLast? = some c → isPySpace c = false := by
    intro s c hc
    by_cases hs : s = ""
    · rw [hs] at hc
      simp [clean_text] at hc
    · rw [clean_text_data s hs] at hc
      exact joinSpace_getLast _ (hgood s) c hc
  refine ⟨?_, hhead, hlast, ?_, rfl⟩
  · intro s
    by_cases hs : s = ""
    · rw [hs]
      rfl
    · by_cases ho : clean_text s = ""
      · rw [ho]
        rfl
      · apply String.ext
        rw [clean_text_data (clean_text s) ho, clean_text_data s hs,
          pyWords_joinSpace (pyWords s.data) (hgood s)]
  · intro s
    by_cases hs : s = ""
    · rw [hs]
      simp [clean_text]
    · rw [clean_text_data s hs]
      exact joinSpace_chain _ (hgood s)

/-- Witness for C10's quantified parts at a concrete messy string. -/
theorem clean_text_idempotent_normal_witness :
    clean_text (clean_text "  Data   Analyst\t(Remote) ") =
      clean_text "  Data   Analyst\t(Remote) " :=
  clean_text_idempotent_normal.1 "  Data   Analyst\t(Remote) "

end FJS


